import Mathlib

/-!
Verification of the indicator-computation core of the
`Time_Series_Data_Analysis_on_Stocks` repository
(`src/stock_metrics.py`, `src/helper.py`, with `src/dashboard.py` as caller).

Modelling conventions, used consistently below:
* prices are exact rationals (`ℚ`); the float roundoff of the source is not
  modelled, but every IEEE special-value outcome that the source relies on is:
  a NaN slot of a pandas float series is `Option.none` (or `FVal.nan` where
  infinities must be distinguished from NaN), `x / 0` follows the IEEE rules
  (`0/0` is NaN, `x/0` for `x ≠ 0` is a signed infinity);
* a pandas `DataFrame` is a list of named columns; `df[c] = s` replaces the
  column in place when present and appends it at the end otherwise, exactly
  as pandas does on the caller-owned object;
* `np.log` (the real natural logarithm) and real-valued exponentiation are
  abstracted as explicit function parameters (`log`, `powf`), since the
  concrete claims only use properties such as `log 1 = 0` that hold for the
  real functions;
* every definition is computable, so all concrete instances evaluate by
  `decide`.
-/

namespace StockTS

/-! ## Generic rolling-window machinery (pandas `Series.rolling`) -/

/-- Trailing window that pandas `rolling(window = w)` sees at index `t`:
the elements of `xs` at indices `max 0 (t+1-w) … t`. -/
def rollWin (w t : ℕ) (xs : List ℚ) : List ℚ :=
  (xs.take (t+1)).drop (t+1-w)

/-- Minimum of a nonempty list (`rolling(...).min()`); `0` on `[]`, which is
never reached because a window passed the `min_periods` check is nonempty. -/
def listMin : List ℚ → ℚ
  | [] => 0
  | a :: r => r.foldl min a

/-- Maximum of a nonempty list (`rolling(...).max()`); `0` on `[]`. -/
def listMax : List ℚ → ℚ
  | [] => 0
  | a :: r => r.foldl max a

/-- Arithmetic mean of a list (`rolling(...).mean()`). -/
def listMean (l : List ℚ) : ℚ := l.sum / (l.length : ℚ)

/-- Semantics of pandas `xs.rolling(window, min_periods).AGG()`: position `t`
holds the aggregate of the trailing window when at least `mp` observations
are available there, and NaN (`none`) otherwise. -/
def rolling (w mp : ℕ) (f : List ℚ → ℚ) (xs : List ℚ) : List (Option ℚ) :=
  (List.range xs.length).map fun t =>
    if mp ≤ (rollWin w t xs).length then some (f (rollWin w t xs)) else none

lemma getD_map_range {α : Type} (n : ℕ) (g : ℕ → α) (t : ℕ) (d : α) (ht : t < n) :
    ((List.range n).map g).getD t d = g t := by
  have h1 : t < ((List.range n).map g).length := by simpa using ht
  rw [List.getD_eq_getElem _ _ h1, List.getElem_map, List.getElem_range]

lemma rollWin_length (w t : ℕ) (xs : List ℚ) (ht : t < xs.length) :
    (rollWin w t xs).length = min (t+1) w := by
  simp only [rollWin, List.length_drop, List.length_take]
  omega

lemma rollWin_early (w t : ℕ) (xs : List ℚ) (ht : t < w) :
    rollWin w t xs = xs.take (t+1) := by
  have : t + 1 - w = 0 := by omega
  simp [rollWin, this]

lemma rollWin_sublist (w t : ℕ) (xs : List ℚ) : (rollWin w t xs).Sublist xs :=
  ((xs.take (t+1)).drop_sublist (t+1-w)).trans (xs.take_sublist (t+1))

lemma rolling_length (w mp : ℕ) (f : List ℚ → ℚ) (xs : List ℚ) :
    (rolling w mp f xs).length = xs.length := by
  simp [rolling]

lemma rolling_getD (w mp : ℕ) (f : List ℚ → ℚ) (xs : List ℚ) (t : ℕ)
    (ht : t < xs.length) :
    (rolling w mp f xs).getD t none =
      if mp ≤ (rollWin w t xs).length then some (f (rollWin w t xs)) else none := by
  unfold rolling
  rw [getD_map_range _ _ _ _ ht]

lemma foldl_min_const (a : ℚ) (r : List ℚ) (h : ∀ x ∈ r, x = a) :
    r.foldl min a = a := by
  induction r with
  | nil => rfl
  | cons b rr ih =>
    have hb : b = a := h b (by simp)
    subst hb
    simp only [List.foldl_cons, min_self]
    exact ih fun x hx => h x (by simp [hx])

/-- Minimum of a nonempty list all of whose elements are `c` is `c`. -/
lemma listMin_const (l : List ℚ) (c : ℚ) (hne : l ≠ []) (hc : ∀ a ∈ l, a = c) :
    listMin l = c := by
  match l, hne with
  | a :: r, _ =>
    have ha : a = c := hc a (by simp)
    have hred : listMin (a :: r) = r.foldl min a := rfl
    rw [hred, foldl_min_const a r fun x hx => by rw [hc x (by simp [hx]), ha], ha]

/-! ## RSI (`calculate_rsi` / inner `rsi_calc`, `src/stock_metrics.py` lines 120-131) -/

/-- Embedding of `delta = x.diff()`: NaN at position 0, else the difference
with the previous close. -/
def diffQ (x : List ℚ) : List (Option ℚ) :=
  (List.range x.length).map fun t =>
    if t = 0 then none else some (x.getD t 0 - x.getD (t-1) 0)

/-- Embedding of `gain = (delta.where(delta > 0, 0)).fillna(0)`: NaN is not
greater than 0, so `where` already maps position 0 to 0 and `fillna` is a
no-op. -/
def gains (x : List ℚ) : List ℚ :=
  (diffQ x).map fun d =>
    match d with
    | none => 0
    | some v => if 0 < v then v else 0

/-- Embedding of `loss = (-delta.where(delta < 0, 0)).fillna(0)`. -/
def losses (x : List ℚ) : List ℚ :=
  (diffQ x).map fun d =>
    match d with
    | none => 0
    | some v => if v < 0 then -v else 0

/-- Embedding of `avg_gain = gain.rolling(window, min_periods 1).mean()`. -/
def avg_gain (period : ℕ) (x : List ℚ) : List (Option ℚ) :=
  rolling period 1 listMean (gains x)

/-- Embedding of `avg_loss = loss.rolling(window, min_periods 1).mean()`. -/
def avg_loss (period : ℕ) (x : List ℚ) : List (Option ℚ) :=
  rolling period 1 listMean (losses x)

/-- Pointwise body of `rs = avg_gain / avg_loss; rsi = 100 - 100/(1+rs)`
followed by `rsi.replace([inf, -inf], nan)`, with the IEEE outcomes written
out: when `avg_loss = 0` and `avg_gain > 0`, `rs` is positive infinity and
`rsi` collapses to exactly `100`; when both averages are `0`, `rs` is NaN
(`0/0`) and so is `rsi`; otherwise everything is finite.  Because both
averages are nonnegative, `rsi` itself is never infinite and the `replace`
call is the identity. -/
def rsiPoint : Option ℚ → Option ℚ → Option ℚ
  | some g, some l =>
      if l = 0 then (if g = 0 then none else some 100)
      else some (100 - 100 / (1 + g / l))
  | _, _ => none

/-- Embedding of the inner `rsi_calc` of `calculate_rsi`, applied by
`calculate_rsi` to the chronologically-sorted close series of one ticker.
It is a total function: no runtime fault is possible. -/
def rsi_calc (period : ℕ) (x : List ℚ) : List (Option ℚ) :=
  (List.range x.length).map fun t =>
    rsiPoint ((avg_gain period x).getD t none) ((avg_loss period x).getD t none)

lemma diffQ_length (x : List ℚ) : (diffQ x).length = x.length := by
  simp [diffQ]

lemma gains_length (x : List ℚ) : (gains x).length = x.length := by
  simp [gains, diffQ_length]

lemma losses_length (x : List ℚ) : (losses x).length = x.length := by
  simp [losses, diffQ_length]

lemma avg_gain_getD (period : ℕ) (x : List ℚ) (t : ℕ) (hp : 0 < period)
    (ht : t < x.length) :
    (avg_gain period x).getD t none = some (listMean (rollWin period t (gains x))) := by
  have hg : t < (gains x).length := by rw [gains_length]; exact ht
  unfold avg_gain
  rw [rolling_getD _ _ _ _ _ hg, if_pos]
  rw [rollWin_length _ _ _ hg]
  omega

lemma avg_loss_getD (period : ℕ) (x : List ℚ) (t : ℕ) (hp : 0 < period)
    (ht : t < x.length) :
    (avg_loss period x).getD t none = some (listMean (rollWin period t (losses x))) := by
  have hg : t < (losses x).length := by rw [losses_length]; exact ht
  unfold avg_loss
  rw [rolling_getD _ _ _ _ _ hg, if_pos]
  rw [rollWin_length _ _ _ hg]
  omega

lemma avg_loss_period_pos (period : ℕ) (x : List ℚ) (t : ℕ) (q : ℚ)
    (hl : (avg_loss period x).getD t none = some q) : 0 < period ∧ t < x.length := by
  by_cases ht : t < x.length
  · refine ⟨?_, ht⟩
    by_contra hp
    have hp0 : period = 0 := by omega
    have hg : t < (losses x).length := by rw [losses_length]; exact ht
    rw [hp0] at hl
    unfold avg_loss at hl
    rw [rolling_getD _ _ _ _ _ hg, if_neg] at hl
    · exact Option.noConfusion hl
    · rw [rollWin_length _ _ _ hg]; omega
  · exfalso
    have hlen : (avg_loss period x).length ≤ t := by
      rw [avg_loss, rolling_length, losses_length]; omega
    rw [List.getD_eq_default _ _ hlen] at hl
    exact Option.noConfusion hl

lemma rsiPoint_loss_zero (g : ℚ) :
    rsiPoint (some g) (some 0) = if g = 0 then none else some 100 := by
  simp [rsiPoint]

lemma take_one_eq_getD (l : List ℚ) (hl : 0 < l.length) : l.take 1 = [l.getD 0 0] := by
  cases l with
  | nil => simp at hl
  | cons a r => simp

lemma diffQ_getD_zero (x : List ℚ) (h : 0 < x.length) : (diffQ x).getD 0 none = none := by
  unfold diffQ
  rw [getD_map_range _ _ _ _ h]
  simp

lemma gains_getD_zero (x : List ℚ) (h : 0 < x.length) : (gains x).getD 0 0 = 0 := by
  have hd : 0 < (diffQ x).length := by rw [diffQ_length]; exact h
  unfold gains
  rw [List.getD_eq_getElem _ _ (by simpa [diffQ_length] using h), List.getElem_map]
  have h0 : (diffQ x)[0] = none := by
    have h1 := diffQ_getD_zero x h
    rwa [List.getD_eq_getElem _ _ hd] at h1
  rw [h0]

lemma losses_getD_zero (x : List ℚ) (h : 0 < x.length) : (losses x).getD 0 0 = 0 := by
  have hd : 0 < (diffQ x).length := by rw [diffQ_length]; exact h
  unfold losses
  rw [List.getD_eq_getElem _ _ (by simpa [diffQ_length] using h), List.getElem_map]
  have h0 : (diffQ x)[0] = none := by
    have h1 := diffQ_getD_zero x h
    rwa [List.getD_eq_getElem _ _ hd] at h1
  rw [h0]

/-- Strictly increasing 20-bar close series `1, 2, …, 20` used for the
end-to-end RSI scenario (20 daily bars of one ticker, period 14). -/
def closesC3 : List ℚ := (List.range 20).map fun i => ((i : ℚ) + 1)

/-- C1 (amended).  In `calculate_rsi`, at every position where the windowed
average loss is `0`: if the windowed average gain is nonzero the RSI value is
exactly `100` (the `rs = +infinity` collapse of `100 - 100/(1+rs)`), and if
the average gain is also `0` the position is left undefined (NaN, from the
IEEE `0/0`); in neither case is a runtime fault raised (`rsi_calc` is total
by construction). -/
theorem C1_rsi_avgLoss_zero (x : List ℚ) (period t : ℕ)
    (hl : (avg_loss period x).getD t none = some 0) :
    (rsi_calc period x).getD t none =
      if (avg_gain period x).getD t none = some 0 then none else some 100 := by
  obtain ⟨hp, ht⟩ := avg_loss_period_pos period x t 0 hl
  have hg := avg_gain_getD period x t hp ht
  have hl2 := avg_loss_getD period x t hp ht
  have hmean : listMean (rollWin period t (losses x)) = 0 := by
    rw [hl2] at hl
    exact Option.some_inj.mp hl
  unfold rsi_calc
  rw [getD_map_range _ _ _ _ ht, hg, hl2, hmean, rsiPoint_loss_zero]
  by_cases hG : listMean (rollWin period t (gains x)) = 0
  · rw [if_pos hG, if_pos (by rw [hG])]
  · rw [if_neg hG, if_neg (by simpa using hG)]

/-- Witness for C1: on the two-bar rising series `[5, 6]` with period 14, the
average loss at position 1 is `0`, the average gain is `1/2 ≠ 0`, and the
theorem yields RSI exactly `100` there. -/
theorem C1_witness :
    (avg_loss 14 [5, 6]).getD 1 none = some 0 ∧
      (rsi_calc 14 [5, 6]).getD 1 none = some 100 := by
  have h := C1_rsi_avgLoss_zero [5, 6] 14 1 (by with_unfolding_all decide)
  refine ⟨by with_unfolding_all decide, ?_⟩
  rw [h, if_neg (by with_unfolding_all decide)]

/-- Counterexample to C1 as stated.  The claim promises that a zero-`avgLoss`
position always carries the sentinel `100` and "is never left undefined";
but on the constant series `[5, 5]` with period 14 the average loss at
position 1 is `0` while the RSI there is NaN (undefined), because the average
gain is also `0` and `rs = 0/0` is NaN, not infinity. -/
theorem C1_counterexample :
    (avg_loss 14 [5, 5]).getD 1 none = some 0 ∧
      (rsi_calc 14 [5, 5]).getD 1 none = none := by with_unfolding_all decide

/-- C3 (amended).  In `calculate_rsi` the averages use pandas
`min_periods 1`: at every position `t` of the input both `avgGain[t]` and
`avgLoss[t]` are defined and equal the mean of the trailing window, which for
`t < period` is exactly the available prefix `gains[0..t]` / `losses[0..t]`
rather than being undefined.  The claimed consequence "no RSI position is
undefined on 20 bars" is nevertheless false at position 0 — there
`gain = loss = 0` always (the diff is NaN), so `rs = 0/0` is NaN — and holds
at every later position of a 20-bar strictly-moving series: on
`closesC3 = 1, 2, …, 20` with period 14 the RSI column is NaN at position 0
followed by nineteen defined values (all `100`, as the series only gains). -/
theorem C3_rsi_min_sample :
    (∀ (x : List ℚ) (period t : ℕ), 0 < period → t < x.length →
        (avg_gain period x).getD t none = some (listMean (rollWin period t (gains x)))
      ∧ (avg_loss period x).getD t none = some (listMean (rollWin period t (losses x)))
      ∧ (t < period → rollWin period t (gains x) = (gains x).take (t+1)
          ∧ rollWin period t (losses x) = (losses x).take (t+1)))
  ∧ (∀ (x : List ℚ) (period : ℕ), x ≠ [] → (rsi_calc period x).getD 0 none = none)
  ∧ rsi_calc 14 closesC3 = none :: List.replicate 19 (some 100) := by
  refine ⟨?_, ?_, by with_unfolding_all decide⟩
  · intro x period t hp ht
    exact ⟨avg_gain_getD period x t hp ht, avg_loss_getD period x t hp ht,
      fun htp => ⟨rollWin_early period t (gains x) htp,
        rollWin_early period t (losses x) htp⟩⟩
  · intro x period hx
    have hlen : 0 < x.length := List.length_pos.mpr hx
    by_cases hp : 0 < period
    · have hg := avg_gain_getD period x 0 hp hlen
      have hl := avg_loss_getD period x 0 hp hlen
      have hwin : rollWin period 0 (gains x) = [(gains x).getD 0 0] := by
        rw [rollWin_early period 0 (gains x) hp]
        exact take_one_eq_getD _ (by rw [gains_length]; exact hlen)
      have hwinl : rollWin period 0 (losses x) = [(losses x).getD 0 0] := by
        rw [rollWin_early period 0 (losses x) hp]
        exact take_one_eq_getD _ (by rw [losses_length]; exact hlen)
      have hm : listMean [(0 : ℚ)] = 0 := by
        unfold listMean
        simp
      unfold rsi_calc
      rw [getD_map_range _ _ _ _ hlen, hg, hl, hwin, hwinl,
        gains_getD_zero x hlen, losses_getD_zero x hlen, hm, rsiPoint_loss_zero,
        if_pos rfl]
    · have hp0 : period = 0 := by omega
      subst hp0
      have hnone : (avg_loss 0 x).getD 0 none = none := by
        unfold avg_loss
        rw [rolling_getD _ _ _ _ _ (by simpa [losses_length] using hlen), if_neg]
        rw [rollWin_length _ _ _ (by simpa [losses_length] using hlen)]
        omega
      unfold rsi_calc
      rw [getD_map_range _ _ _ _ hlen, hnone]
      cases (avg_gain 0 x).getD 0 none <;> simp [rsiPoint]

/-- Witness for C3: the min-sample-1 prefix averages and the undefined
position 0, instantiated on the concrete series `[5, 6]` with period 14. -/
theorem C3_witness :
    ((avg_gain 14 [5, 6]).getD 1 none = some (listMean (rollWin 14 1 (gains [5, 6])))
      ∧ rollWin 14 1 (gains [5, 6]) = (gains [5, 6]).take 2)
    ∧ (rsi_calc 14 [5, 6]).getD 0 none = none := by
  obtain ⟨h1, -, h3⟩ := C3_rsi_min_sample.1 [5, 6] 14 1 (by decide)
    (by with_unfolding_all decide)
  exact ⟨⟨h1, (h3 (by decide)).1⟩,
    C3_rsi_min_sample.2.1 [5, 6] 14 (by with_unfolding_all decide)⟩

/-- Counterexample to C3 as stated.  On an input of 20 daily bars of one
ticker (`closesC3`) with period 14, the claim "no RSI position in the output
is undefined" fails: position 0 is NaN, because the first diff is NaN, hence
`gain[0] = loss[0] = 0` and `rs = 0/0` is NaN regardless of the data. -/
theorem C3_counterexample :
    closesC3.length = 20 ∧ (rsi_calc 14 closesC3).getD 0 none = none := by
  with_unfolding_all decide

/-! ## Divergence detector (`detect_divergences`, `src/helper.py` lines 27-41) -/

/-- Embedding of `df['Price_High'] = df['Close'].rolling(14, min_periods 1).max()`. -/
def price_high (close : List ℚ) : List (Option ℚ) := rolling 14 1 listMax close

/-- Embedding of `df['Price_Low'] = df['Close'].rolling(14, min_periods 1).min()`. -/
def price_low (close : List ℚ) : List (Option ℚ) := rolling 14 1 listMin close

/-- Embedding of `df['MFI_High'] = df['MFI'].rolling(14, min_periods 1).max()`. -/
def mfi_high (mfi : List ℚ) : List (Option ℚ) := rolling 14 1 listMax mfi

/-- Embedding of `df['MFI_Low'] = df['MFI'].rolling(14, min_periods 1).min()`. -/
def mfi_low (mfi : List ℚ) : List (Option ℚ) := rolling 14 1 listMin mfi

/-- Pandas float equality `==`: a NaN slot compares unequal to everything. -/
def eqF : Option ℚ → Option ℚ → Bool
  | some a, some b => decide (a = b)
  | _, _ => false

/-- Pandas float inequality `!=`, the negation of `==` (NaN `!=` anything is true). -/
def neF (a b : Option ℚ) : Bool := !(eqF a b)

/-- Embedding of `df['Bull_Div'] = (df['Close'] == df['Price_Low']) &
(df['MFI'] != df['MFI_Low'])`. -/
def bull_div (close mfi : List ℚ) : List Bool :=
  (List.range close.length).map fun t =>
    eqF (some (close.getD t 0)) ((price_low close).getD t none) &&
      neF (some (mfi.getD t 0)) ((mfi_low mfi).getD t none)

/-- Embedding of `df['Bear_Div'] = (df['Close'] == df['Price_High']) &
(df['MFI'] != df['MFI_High'])`. -/
def bear_div (close mfi : List ℚ) : List Bool :=
  (List.range close.length).map fun t =>
    eqF (some (close.getD t 0)) ((price_high close).getD t none) &&
      neF (some (mfi.getD t 0)) ((mfi_high mfi).getD t none)

lemma rolling1_getD (f : List ℚ → ℚ) (xs : List ℚ) (t : ℕ) (ht : t < xs.length) :
    (rolling 14 1 f xs).getD t none = some (f (rollWin 14 t xs)) := by
  rw [rolling_getD _ _ _ _ _ ht, if_pos]
  rw [rollWin_length _ _ _ ht]
  omega

lemma rollWin_ne_nil (w t : ℕ) (xs : List ℚ) (hw : 0 < w) (ht : t < xs.length) :
    rollWin w t xs ≠ [] := by
  have := rollWin_length w t xs ht
  intro hcon
  rw [hcon] at this
  simp at this
  omega

/-- C7 (confirmed).  For inputs carrying Close and MFI series,
`detect_divergences` flags a bullish divergence at `t` iff the close equals
the rolling 14-bar minimum of close (minimum sample size 1) at `t` and the
MFI differs from the rolling 14-bar minimum of MFI at `t`; the bearish flag
is the symmetric exact-equality test against the rolling maxima.  It is an
exact-equality test against the extremum of the trailing window
`rollWin 14 t`, not a new-extreme-since-window-start test. -/
theorem C7_divergence_flags (close mfi : List ℚ) (t : ℕ)
    (hm : mfi.length = close.length) (ht : t < close.length) :
    ((bull_div close mfi).getD t false = true ↔
      (close.getD t 0 = listMin (rollWin 14 t close) ∧
        mfi.getD t 0 ≠ listMin (rollWin 14 t mfi)))
  ∧ ((bear_div close mfi).getD t false = true ↔
      (close.getD t 0 = listMax (rollWin 14 t close) ∧
        mfi.getD t 0 ≠ listMax (rollWin 14 t mfi))) := by
  have htm : t < mfi.length := by rw [hm]; exact ht
  constructor
  · unfold bull_div
    rw [getD_map_range _ _ _ _ ht]
    unfold price_low mfi_low
    rw [rolling1_getD _ _ _ ht, rolling1_getD _ _ _ htm]
    simp [eqF, neF]
  · unfold bear_div
    rw [getD_map_range _ _ _ _ ht]
    unfold price_high mfi_high
    rw [rolling1_getD _ _ _ ht, rolling1_getD _ _ _ htm]
    simp [eqF, neF]

/-- Witness for C7 at a concrete input: closes `[3, 2, 1]`, MFI `[50, 60, 70]`,
position 2: the close is a fresh rolling low and the MFI is not at its rolling
low, so the bullish flag fires and the bearish flag does not. -/
theorem C7_witness :
    (bull_div [3, 2, 1] [50, 60, 70]).getD 2 false = true ∧
      (bear_div [3, 2, 1] [50, 60, 70]).getD 2 false = false := by
  have h := C7_divergence_flags [3, 2, 1] [50, 60, 70] 2 (by decide) (by decide)
  constructor
  · exact h.1.mpr (by with_unfolding_all decide)
  · by_contra hb
    have hb2 : (bear_div [3, 2, 1] [50, 60, 70]).getD 2 false = true := by
      revert hb
      cases (bear_div [3, 2, 1] [50, 60, 70]).getD 2 false <;> simp
    have := h.2.mp hb2
    revert this
    with_unfolding_all decide

/-- C2 (amended).  For every strictly decreasing close series paired with a
constant (flat) MFI series, `detect_divergences` sets the bullish-divergence
flag to FALSE at every bar: the flat MFI always equals its rolling 14-bar
minimum, so the `MFI != MFI_Low` conjunct of the flag never holds, no matter
that every bar of the close is a fresh rolling low. -/
theorem C2_flat_mfi_no_bull (close mfi : List ℚ)
    (hm : mfi.length = close.length)
    (hdec : ∀ i, i < close.length - 1 → close.getD (i+1) 0 < close.getD i 0)
    (hflat : ∀ i, i < mfi.length → mfi.getD i 0 = mfi.getD 0 0) :
    ∀ t, t < close.length → (bull_div close mfi).getD t false = false := by
  intro t ht
  have htm : t < mfi.length := by rw [hm]; exact ht
  have hwin : ∀ a ∈ rollWin 14 t mfi, a = mfi.getD 0 0 := by
    intro a ha
    have hamem : a ∈ mfi := (rollWin_sublist 14 t mfi).mem ha
    obtain ⟨i, hi, hia⟩ := List.mem_iff_getElem.mp hamem
    have : mfi.getD i 0 = a := by rw [List.getD_eq_getElem _ _ hi, hia]
    rw [← this]
    exact hflat i hi
  have hmin : listMin (rollWin 14 t mfi) = mfi.getD 0 0 :=
    listMin_const _ _ (rollWin_ne_nil 14 t mfi (by omega) htm) hwin
  unfold bull_div
  rw [getD_map_range _ _ _ _ ht]
  unfold mfi_low
  rw [rolling1_getD _ _ _ htm, hmin]
  have hmt : mfi.getD t 0 = mfi.getD 0 0 := hflat t htm
  have hne : neF (some (mfi.getD t 0)) (some (mfi.getD 0 0)) = false := by
    simp only [neF, eqF, hmt]
    simp
  rw [hne, Bool.and_false]

/-- Witness for C2: fifteen strictly decreasing closes `15, 14, …, 1` with a
flat MFI of 50; at bar 14 (past even a full 14-bar warm-up) the bullish flag
is false. -/
theorem C2_witness :
    (bull_div ((List.range 15).map fun i => ((15 - i : ℤ) : ℚ))
      (List.replicate 15 50)).getD 14 false = false := by
  refine C2_flat_mfi_no_bull _ _ (by decide) ?_ ?_ 14 (by decide)
  · intro i hi
    have hi14 : i < 14 := by simpa using hi
    revert hi14
    revert i
    with_unfolding_all decide
  · intro i hi
    have hi15 : i < 15 := by simpa using hi
    revert hi15
    revert i
    with_unfolding_all decide

set_option maxRecDepth 10000 in
/-- Counterexample to C2 as stated.  The claim says a strictly decreasing
close with a flat MFI produces a bullish-divergence flag at EVERY bar after
the warm-up; on fifteen strictly decreasing closes with MFI constantly 50 the
flag is false at every single bar, because the flat MFI equals its rolling
minimum everywhere. -/
theorem C2_counterexample :
    (((List.range 14).all fun i =>
        decide ((((List.range 15).map fun j => ((15 - j : ℤ) : ℚ)).getD (i+1) 0) <
          (((List.range 15).map fun j => ((15 - j : ℤ) : ℚ)).getD i 0))) = true)
  ∧ bull_div ((List.range 15).map fun i => ((15 - i : ℤ) : ℚ))
      (List.replicate 15 50) = List.replicate 15 false := by
  with_unfolding_all decide

/-! ## Stochastic oscillator (`calculate_stochastic_oscillator`,
`src/stock_metrics.py` lines 90-103) -/

/-- IEEE float value as far as the stochastic pipeline can observe it:
NaN, a signed infinity, or a finite (rational) number. -/
inductive FVal where
  | nan : FVal
  | pinf : FVal
  | ninf : FVal
  | fin : ℚ → FVal
deriving DecidableEq, Repr

/-- True exactly on the NaN value. -/
def isNan : FVal → Bool
  | FVal.nan => true
  | _ => false

/-- IEEE addition restricted to the values that occur here: NaN is absorbing
and opposite infinities give NaN. -/
def fadd : FVal → FVal → FVal
  | FVal.nan, _ => FVal.nan
  | _, FVal.nan => FVal.nan
  | FVal.pinf, FVal.ninf => FVal.nan
  | FVal.ninf, FVal.pinf => FVal.nan
  | FVal.pinf, _ => FVal.pinf
  | _, FVal.pinf => FVal.pinf
  | FVal.ninf, _ => FVal.ninf
  | _, FVal.ninf => FVal.ninf
  | FVal.fin a, FVal.fin b => FVal.fin (a + b)

/-- IEEE division by a positive finite constant (used only with divisor 3). -/
def fdivPos : FVal → ℚ → FVal
  | FVal.nan, _ => FVal.nan
  | FVal.pinf, _ => FVal.pinf
  | FVal.ninf, _ => FVal.ninf
  | FVal.fin a, q => FVal.fin (a / q)

/-- IEEE greater-than against a finite bound: NaN compares false. -/
def fgt : FVal → ℚ → Bool
  | FVal.nan, _ => false
  | FVal.pinf, _ => true
  | FVal.ninf, _ => false
  | FVal.fin a, q => decide (q < a)

/-- IEEE less-than against a finite bound: NaN compares false. -/
def flt : FVal → ℚ → Bool
  | FVal.nan, _ => false
  | FVal.pinf, _ => false
  | FVal.ninf, _ => true
  | FVal.fin a, q => decide (a < q)

/-- Embedding of `df['lowest_low'] = df['Low'].rolling(window periods).min()`;
pandas keeps the default `min_periods = window`, so the first `periods - 1`
positions are NaN. -/
def lowest_low (periods : ℕ) (low : List ℚ) : List (Option ℚ) :=
  rolling periods periods listMin low

/-- Embedding of `df['highest_high'] = df['High'].rolling(window periods).max()`. -/
def highest_high (periods : ℕ) (high : List ℚ) : List (Option ℚ) :=
  rolling periods periods listMax high

/-- Embedding of `df['%K'] = ((df['Close'] - df['lowest_low']) /
(df['highest_high'] - df['lowest_low'])) * 100` with IEEE outcomes written
out: NaN extrema propagate to NaN; a zero denominator gives NaN when the
numerator is zero (`0/0`) and a signed infinity otherwise; a nonzero
denominator gives the finite value. -/
def percentK (periods : ℕ) (high low close : List ℚ) : List FVal :=
  (List.range close.length).map fun t =>
    match (lowest_low periods low).getD t none, (highest_high periods high).getD t none with
    | some l, some h =>
        if h - l = 0 then
          (if close.getD t 0 - l = 0 then FVal.nan
           else if 0 < close.getD t 0 - l then FVal.pinf else FVal.ninf)
        else FVal.fin ((close.getD t 0 - l) / (h - l) * 100)
    | _, _ => FVal.nan

/-- Embedding of `df['%D'] = df['%K'].rolling(window 3).mean()`: with the
default `min_periods = 3`, the value is NaN whenever fewer than 3
observations are available or any of the 3 trailing entries of `%K` is NaN;
otherwise it is their mean under IEEE infinity arithmetic. -/
def percentD (k : List FVal) : List FVal :=
  (List.range k.length).map fun t =>
    if t + 1 < 3 then FVal.nan
    else
      if ([k.getD (t-2) FVal.nan, k.getD (t-1) FVal.nan, k.getD t FVal.nan]).any isNan
      then FVal.nan
      else fdivPos ((([k.getD (t-2) FVal.nan, k.getD (t-1) FVal.nan,
        k.getD t FVal.nan]).foldl fadd (FVal.fin 0))) 3

/-- Embedding of `df['Status'] = np.where(df['%K'] > 80, 'Overbought',
np.where(df['%K'] < 20, 'Oversold', 'Neutral'))`; a NaN `%K` classifies as
Neutral, an infinite one as Overbought/Oversold. -/
def statusOf (k : FVal) : String :=
  if fgt k 80 then "Overbought" else if flt k 20 then "Oversold" else "Neutral"

lemma percentK_length (periods : ℕ) (high low close : List ℚ) :
    (percentK periods high low close).length = close.length := by
  simp [percentK]

lemma lowhigh_getD_none (P t : ℕ) (xs : List ℚ) (f : List ℚ → ℚ)
    (ht : t < xs.length) (hlt : t + 1 < P) :
    (rolling P P f xs).getD t none = none := by
  rw [rolling_getD _ _ _ _ _ ht, if_neg]
  rw [rollWin_length _ _ _ ht]
  omega

lemma lowest_low_getD_none (P t : ℕ) (low : List ℚ)
    (ht : t < low.length) (hlt : t + 1 < P) :
    (lowest_low P low).getD t none = none := by
  unfold lowest_low
  exact lowhigh_getD_none P t low listMin ht hlt

/-- C8 (amended).  The stochastic oscillator leaves `%K` NaN for the first
`P - 1` bars (pandas default `min_periods = window`, no minimum-sample
relaxation).  At any later bar where `highestHigh - lowestLow = 0`, no
divide-by-zero runtime fault occurs, but the value is NaN only when the close
equals the degenerate extremum (`0/0`); when the close differs from it the
IEEE quotient is a signed infinity, which is a defined (non-NaN) value.
`%D`, the 3-bar moving average of `%K`, is NaN for the first `P + 1` bars
(warm-up plus its own first two valid bars); with period 14 on 20 bars that
is the claimed 13 NaN `%K` and 15 NaN `%D` positions. -/
theorem C8_stochastic_undefined (P : ℕ) (high low close : List ℚ) (hP : 0 < P)
    (hh : high.length = close.length) (hl : low.length = close.length) :
    (∀ t, t < close.length → t + 1 < P →
      (percentK P high low close).getD t FVal.nan = FVal.nan)
  ∧ (∀ t, t < close.length →
      ∀ l h, (lowest_low P low).getD t none = some l →
        (highest_high P high).getD t none = some h → h - l = 0 →
        (percentK P high low close).getD t FVal.nan =
          (if close.getD t 0 = l then FVal.nan
           else if l < close.getD t 0 then FVal.pinf else FVal.ninf))
  ∧ (∀ t, t < close.length → t < P + 1 →
      (percentD (percentK P high low close)).getD t FVal.nan = FVal.nan) := by
  have hKnan : ∀ t, t < close.length → t + 1 < P →
      (percentK P high low close).getD t FVal.nan = FVal.nan := by
    intro t ht hP1
    unfold percentK
    rw [getD_map_range _ _ _ _ ht]
    rw [lowest_low_getD_none P t low (by rw [hl]; exact ht) hP1]
  refine ⟨hKnan, ?_, ?_⟩
  · intro t ht l h hll hhh hdeg
    unfold percentK
    rw [getD_map_range _ _ _ _ ht, hll, hhh]
    show (if h - l = 0 then
        (if close.getD t 0 - l = 0 then FVal.nan
         else if 0 < close.getD t 0 - l then FVal.pinf else FVal.ninf)
      else FVal.fin ((close.getD t 0 - l) / (h - l) * 100)) = _
    rw [if_pos hdeg]
    rcases lt_trichotomy (close.getD t 0) l with hc | hc | hc
    · have h1 : ¬(close.getD t 0 - l = 0) := by intro h0; linarith
      have h2 : ¬(0 < close.getD t 0 - l) := by linarith
      have h3 : ¬(close.getD t 0 = l) := by intro h0; linarith
      have h4 : ¬(l < close.getD t 0) := by linarith
      rw [if_neg h1, if_neg h2, if_neg h3, if_neg h4]
    · have h1 : close.getD t 0 - l = 0 := by linarith
      rw [if_pos h1, if_pos hc]
    · have h1 : ¬(close.getD t 0 - l = 0) := by intro h0; linarith
      have h2 : 0 < close.getD t 0 - l := by linarith
      have h3 : ¬(close.getD t 0 = l) := by intro h0; linarith
      rw [if_neg h1, if_pos h2, if_neg h3, if_pos hc]
  · intro t ht htP
    have hk : t < (percentK P high low close).length := by
      rw [percentK_length]; exact ht
    unfold percentD
    rw [getD_map_range _ _ _ _ hk]
    by_cases h3 : t + 1 < 3
    · rw [if_pos h3]
    · rw [if_neg h3]
      have ht2 : t - 2 < close.length := by omega
      have ht2P : t - 2 + 1 < P := by omega
      have hnan2 : (percentK P high low close).getD (t-2) FVal.nan = FVal.nan :=
        hKnan (t-2) ht2 ht2P
      have hany : ([(percentK P high low close).getD (t-2) FVal.nan,
          (percentK P high low close).getD (t-1) FVal.nan,
          (percentK P high low close).getD t FVal.nan]).any isNan = true := by
        rw [List.any_cons, hnan2]
        simp [isNan]
      rw [if_pos hany]

/-- Witness for C8 on a 14-bar flat-range input (`High = Low = 5`,
`Close = 7`): `%K` is NaN on the warm-up bar 5 and `%D` is NaN on bar 13. -/
theorem C8_witness :
    (percentK 14 (List.replicate 14 5) (List.replicate 14 5)
      (List.replicate 14 7)).getD 5 FVal.nan = FVal.nan ∧
    (percentD (percentK 14 (List.replicate 14 5) (List.replicate 14 5)
      (List.replicate 14 7))).getD 13 FVal.nan = FVal.nan := by
  have h := C8_stochastic_undefined 14 (List.replicate 14 5) (List.replicate 14 5)
    (List.replicate 14 7) (by decide) (by decide) (by decide)
  exact ⟨h.1 5 (by decide) (by decide), h.2.2 13 (by decide) (by decide)⟩

set_option maxRecDepth 10000 in
/-- Counterexample to C8 as stated.  The claim says `%K` is undefined at any
post-warm-up bar with `highestHigh - lowestLow = 0`; on 14 bars with
`High = Low = 5` but `Close = 7` (nothing in the input contract ties the
close to the high/low range), bar 13 has a zero denominator yet
`%K = (7-5)/0 * 100` is POSITIVE INFINITY — a defined non-NaN value which
even classifies as Overbought — not an undefined one. -/
theorem C8_counterexample :
    (highest_high 14 (List.replicate 14 5)).getD 13 none = some 5
  ∧ (lowest_low 14 (List.replicate 14 5)).getD 13 none = some 5
  ∧ (percentK 14 (List.replicate 14 5) (List.replicate 14 5)
      (List.replicate 14 7)).getD 13 FVal.nan = FVal.pinf
  ∧ statusOf FVal.pinf = "Overbought" := by
  with_unfolding_all decide

/-! ## DataFrame model: named columns mutated in place

The pandas `DataFrame` objects that the source functions receive are modelled
as ordered lists of named columns.  Column assignment `df[n] = s` on the
caller-owned object replaces the column in place when the name exists and
appends it as the last column otherwise, exactly as pandas does. -/

/-- Calendar date (year, month, day). -/
structure SDate where
  y : ℕ
  m : ℕ
  d : ℕ
deriving DecidableEq, Repr

/-- Column payload: float (`ℚ`), float-with-NaN, IEEE float, boolean, string
or datetime columns. -/
inductive Col where
  | qs : List ℚ → Col
  | os : List (Option ℚ) → Col
  | fs : List FVal → Col
  | bs : List Bool → Col
  | ss : List String → Col
  | ds : List SDate → Col
deriving DecidableEq

/-- A DataFrame: ordered association list of named columns. -/
abbrev DFrame : Type := List (String × Col)

/-- Column names of a frame, in order (`df.columns`). -/
def colNames (df : DFrame) : List String := df.map Prod.fst

/-- Embedding of the membership test `n in df.columns`. -/
def hasCol (df : DFrame) (n : String) : Bool := decide (n ∈ colNames df)

/-- Lookup of a column by name (`df[n]` on the right-hand side of `=`). -/
def getCol (df : DFrame) (n : String) : Option Col := df.lookup n

/-- Lookup of a float column; `none` when the name is absent or the column is
not float-typed (in the source, the latter would be a `TypeError` and is
outside the numeric PriceTable data model). -/
def getQCol (df : DFrame) (n : String) : Option (List ℚ) :=
  match getCol df n with
  | some (Col.qs l) => some l
  | _ => none

/-- Embedding of the column assignment `df[n] = c` performed on the
caller-owned object: in-place replacement or append-at-end. -/
def setCol (df : DFrame) (n : String) (c : Col) : DFrame :=
  if n ∈ colNames df then df.map (fun p => if p.1 = n then (n, c) else p)
  else df ++ [(n, c)]

/-- Embedding of dropping a column (the net effect of
`df.set_index('Date', inplace True)` on `df.columns`). -/
def dropCol (df : DFrame) (n : String) : DFrame :=
  df.filter fun p => !(p.1 == n)

/-- True when every column is float-typed, the shape of a numeric price
table as produced by the ingestion collaborator. -/
def numericDF (df : DFrame) : Bool :=
  df.all fun p =>
    match p.2 with
    | Col.qs _ => true
    | _ => false

lemma mem_colNames_setCol (df : DFrame) (n : String) (c : Col) :
    n ∈ colNames (setCol df n c) := by
  unfold setCol
  by_cases h : n ∈ colNames df
  · rw [if_pos h]
    obtain ⟨p, hp, hpn⟩ := List.mem_map.mp h
    apply List.mem_map.mpr
    refine ⟨if p.1 = n then (n, c) else p, List.mem_map.mpr ⟨p, hp, rfl⟩, ?_⟩
    rw [if_pos hpn]
  · rw [if_neg h]
    unfold colNames
    rw [List.map_append]
    simp

lemma mem_colNames_setCol_of_mem (df : DFrame) (n : String) (c : Col) (m : String)
    (h : m ∈ colNames df) : m ∈ colNames (setCol df n c) := by
  unfold setCol
  by_cases hn : n ∈ colNames df
  · rw [if_pos hn]
    obtain ⟨p, hp, hpm⟩ := List.mem_map.mp h
    apply List.mem_map.mpr
    refine ⟨if p.1 = n then (n, c) else p, List.mem_map.mpr ⟨p, hp, rfl⟩, ?_⟩
    by_cases hp1 : p.1 = n
    · rw [if_pos hp1]
      show n = m
      rw [← hp1]
      exact hpm
    · rw [if_neg hp1]
      exact hpm
  · rw [if_neg hn]
    unfold colNames at h ⊢
    rw [List.map_append]
    exact List.mem_append_left _ h

lemma hasCol_setCol_self (df : DFrame) (n : String) (c : Col) :
    hasCol (setCol df n c) n = true := by
  unfold hasCol
  exact decide_eq_true (mem_colNames_setCol df n c)

lemma hasCol_setCol_mono (df : DFrame) (n : String) (c : Col) (m : String)
    (h : hasCol df m = true) : hasCol (setCol df n c) m = true := by
  unfold hasCol at h ⊢
  exact decide_eq_true (mem_colNames_setCol_of_mem df n c m (of_decide_eq_true h))

lemma hasCol_dropCol_self (df : DFrame) (n : String) :
    hasCol (dropCol df n) n = false := by
  unfold hasCol dropCol colNames
  apply decide_eq_false
  intro hmem
  obtain ⟨p, hp, hpn⟩ := List.mem_map.mp hmem
  have := List.of_mem_filter hp
  rw [hpn] at this
  simp at this

/-! ## Post-call state of the caller-owned frame for each component -/

/-- Caller-visible effect of `calculate_stochastic_oscillator(df, periods)`
(lines 90-101): the five derived columns `lowest_low`, `highest_high`, `%K`,
`%D`, `Status` are assigned onto the caller's object in that order (the
function then returns the three-column view
`df[['%K', '%D', 'Status']]`).  When a required input column is absent the
source raises a `KeyError` before completing the assignments; the model
returns the input unchanged in that case. -/
def calculate_stochastic_oscillator_post (periods : ℕ) (df : DFrame) : DFrame :=
  match getQCol df "Low", getQCol df "High", getQCol df "Close" with
  | some low, some high, some close =>
      let k := percentK periods high low close
      setCol (setCol (setCol (setCol (setCol df
        "lowest_low" (Col.os (lowest_low periods low)))
        "highest_high" (Col.os (highest_high periods high)))
        "%K" (Col.fs k))
        "%D" (Col.fs (percentD k)))
        "Status" (Col.ss (k.map statusOf))
  | _, _, _ => df

/-- Returned value of `calculate_stochastic_oscillator`: the
`df[['%K', '%D', 'Status']]` projection. -/
def calculate_stochastic_oscillator (periods : ℕ) (df : DFrame) : DFrame :=
  match getQCol df "Low", getQCol df "High", getQCol df "Close" with
  | some low, some high, some close =>
      let k := percentK periods high low close
      [("%K", Col.fs k), ("%D", Col.fs (percentD k)),
        ("Status", Col.ss (k.map statusOf))]
  | _, _, _ => []

/-- Caller-visible effect of `detect_divergences(df)` once the column check
has passed (lines 32-39): six derived columns assigned onto the caller's
object in source order. -/
def detect_divergences_post (df : DFrame) : DFrame :=
  match getQCol df "Close", getQCol df "MFI" with
  | some close, some mfi =>
      setCol (setCol (setCol (setCol (setCol (setCol df
        "Price_High" (Col.os (price_high close)))
        "MFI_High" (Col.os (mfi_high mfi)))
        "Price_Low" (Col.os (price_low close)))
        "MFI_Low" (Col.os (mfi_low mfi)))
        "Bull_Div" (Col.bs (bull_div close mfi)))
        "Bear_Div" (Col.bs (bear_div close mfi))
  | _, _ => df

/-- Full call semantics of `detect_divergences(df)` (lines 27-41): the column
check `'Close' not in df.columns or 'MFI' not in df.columns` runs FIRST and
raises `ValueError` before any assignment touches the frame; otherwise the
six columns are assigned and the same (mutated) object is returned.  The
result pairs the post-call state of the caller's object with the
outcome. -/
def detect_divergences_call (df : DFrame) : DFrame × Except String DFrame :=
  if hasCol df "Close" && hasCol df "MFI" then
    (detect_divergences_post df, Except.ok (detect_divergences_post df))
  else
    (df, Except.error "DataFrame must contain Close and MFI columns")

/-- True on the `ok` outcome of a call. -/
def isOkE (e : Except String DFrame) : Bool :=
  match e with
  | Except.ok _ => true
  | Except.error _ => false

/-- Caller-visible effect of `calculate_macd(df, ...)` (lines 189-191): when
a `Date` column is present it is converted with `to_datetime` in place and
then moved out of the columns into the index by `set_index('Date',
inplace True)`; the net caller-visible column effect is the removal of
`Date`.  All later per-group computations happen on fresh `groupby` copies
and never touch the caller's object. -/
def calculate_macd_post (df : DFrame) : DFrame :=
  if hasCol df "Date" then dropCol df "Date" else df

/-! ## Candlestick pattern detector (`detect_candlestick_patterns`,
`src/helper.py` lines 43-73) -/

/-- Abstract interface of the TA-Lib pattern primitives used by
`detect_candlestick_patterns`; each takes the open/high/low/close series and
returns an integer code per bar (0 means no pattern, and for the engulfing
measure the SIGN carries the direction). -/
structure TalibFns where
  cdldoji : List ℚ → List ℚ → List ℚ → List ℚ → List ℤ
  cdlhammer : List ℚ → List ℚ → List ℚ → List ℚ → List ℤ
  cdlhangingman : List ℚ → List ℚ → List ℚ → List ℚ → List ℤ
  cdlengulfing : List ℚ → List ℚ → List ℚ → List ℚ → List ℤ
  cdlmorningstar : List ℚ → List ℚ → List ℚ → List ℚ → List ℤ
  cdleveningstar : List ℚ → List ℚ → List ℚ → List ℚ → List ℤ

/-- Embedding of `df['Bullish_Engulfing'] = talib.CDLENGULFING(o, h, l, c) > 0`. -/
def bullish_engulfing (fns : TalibFns) (o h l c : List ℚ) : List Bool :=
  (fns.cdlengulfing o h l c).map fun v => decide (0 < v)

/-- Embedding of `df['Bearish_Engulfing'] = talib.CDLENGULFING(o, h, l, c) < 0`;
the source calls the same pure `CDLENGULFING` on the same four arguments, so
both flags are sign tests of one signed measure. -/
def bearish_engulfing (fns : TalibFns) (o h l c : List ℚ) : List Bool :=
  (fns.cdlengulfing o h l c).map fun v => decide (v < 0)

/-- Caller-visible effect of `detect_candlestick_patterns(df)`: seven boolean
pattern columns assigned onto the caller's object (the five named in the
final conversion loop are first assigned as integer codes and then converted
with `!= 0`; the two engulfing columns are boolean sign tests from the
start). -/
def detect_candlestick_patterns (fns : TalibFns) (df : DFrame) : DFrame :=
  match getQCol df "Open", getQCol df "High", getQCol df "Low", getQCol df "Close" with
  | some o, some h, some l, some c =>
      setCol (setCol (setCol (setCol (setCol (setCol (setCol df
        "Doji" (Col.bs ((fns.cdldoji o h l c).map fun v => decide (v ≠ 0))))
        "Hammer" (Col.bs ((fns.cdlhammer o h l c).map fun v => decide (v ≠ 0))))
        "Hanging_Man" (Col.bs ((fns.cdlhangingman o h l c).map fun v => decide (v ≠ 0))))
        "Bullish_Engulfing" (Col.bs (bullish_engulfing fns o h l c)))
        "Bearish_Engulfing" (Col.bs (bearish_engulfing fns o h l c)))
        "Morning_Star" (Col.bs ((fns.cdlmorningstar o h l c).map fun v => decide (v ≠ 0))))
        "Evening_Star" (Col.bs ((fns.cdleveningstar o h l c).map fun v => decide (v ≠ 0)))
  | _, _, _, _ => df

/-- C10 (confirmed).  In the output of `detect_candlestick_patterns`, the
`Bullish_Engulfing` and `Bearish_Engulfing` flags are never both true at the
same bar: both are sign tests (`> 0`, `< 0`) of one and the same signed
engulfing measure, whatever TA-Lib computes for it, so they are mutually
exclusive at every position. -/
theorem C10_engulfing_exclusive (fns : TalibFns) (o h l c : List ℚ) (t : ℕ) :
    ((bullish_engulfing fns o h l c).getD t false &&
      (bearish_engulfing fns o h l c).getD t false) = false := by
  by_cases ht : t < (fns.cdlengulfing o h l c).length
  · unfold bullish_engulfing bearish_engulfing
    rw [List.getD_eq_getElem _ _ (by simpa using ht),
      List.getD_eq_getElem _ _ (by simpa using ht), List.getElem_map, List.getElem_map]
    by_cases hv : 0 < (fns.cdlengulfing o h l c)[t]
    · rw [decide_eq_false (show ¬((fns.cdlengulfing o h l c)[t] < 0) by omega),
        Bool.and_false]
    · rw [decide_eq_false hv, Bool.false_and]
  · have hlen : (bullish_engulfing fns o h l c).length ≤ t := by
      unfold bullish_engulfing
      rw [List.length_map]
      omega
    rw [List.getD_eq_default _ _ hlen, Bool.false_and]

/-! ## Frame effects: mutation of the caller-owned table (claims C6, C9) -/

/-- Three-column one-bar price frame for the mutation counterexample. -/
def c6df : DFrame := [("High", Col.qs [5]), ("Low", Col.qs [4]), ("Close", Col.qs [9/2])]

/-- Two-bar Close/MFI frame used to exhibit the divergence-detector mutation. -/
def c6dfDiv : DFrame := [("Close", Col.qs [1, 2]), ("MFI", Col.qs [50, 60])]

/-- One-bar frame with a `Date` column used to exhibit the MACD mutation. -/
def c6dfMacd : DFrame := [("Date", Col.ds [⟨2024, 1, 1⟩]), ("Close", Col.qs [3])]

/-- C6 (amended).  The indicator components are NOT free of caller-visible
mutation: `calculate_stochastic_oscillator` assigns five derived columns onto
the caller's object, `detect_divergences` assigns six, and `calculate_macd`
converts `Date` in place and then moves it out of the columns into the index
— so whenever the input carries the required source columns and does not
already carry the derived ones, the caller's table differs after the call.
The outputs themselves remain deterministic functions of the input and the
scalar parameters (every embedded component is a pure function). -/
theorem C6_inplace_mutation (df : DFrame) (periods : ℕ) :
    ((getQCol df "Low").isSome = true → (getQCol df "High").isSome = true →
      (getQCol df "Close").isSome = true → hasCol df "%K" = false →
      calculate_stochastic_oscillator_post periods df ≠ df)
  ∧ ((getQCol df "Close").isSome = true → (getQCol df "MFI").isSome = true →
      hasCol df "Bull_Div" = false → detect_divergences_post df ≠ df)
  ∧ (hasCol df "Date" = true → calculate_macd_post df ≠ df) := by
  refine ⟨?_, ?_, ?_⟩
  · intro h1 h2 h3 h4 heq
    obtain ⟨low, hlow⟩ : ∃ v, getQCol df "Low" = some v := by
      cases hx : getQCol df "Low"
      · rw [hx] at h1
        exact Bool.noConfusion h1
      · exact ⟨_, rfl⟩
    obtain ⟨high, hhigh⟩ : ∃ v, getQCol df "High" = some v := by
      cases hx : getQCol df "High"
      · rw [hx] at h2
        exact Bool.noConfusion h2
      · exact ⟨_, rfl⟩
    obtain ⟨close, hclose⟩ : ∃ v, getQCol df "Close" = some v := by
      cases hx : getQCol df "Close"
      · rw [hx] at h3
        exact Bool.noConfusion h3
      · exact ⟨_, rfl⟩
    have hk : hasCol (calculate_stochastic_oscillator_post periods df) "%K" = true := by
      unfold calculate_stochastic_oscillator_post
      rw [hlow, hhigh, hclose]
      exact hasCol_setCol_mono _ _ _ _ (hasCol_setCol_mono _ _ _ _
        (hasCol_setCol_self _ _ _))
    rw [heq, h4] at hk
    exact Bool.noConfusion hk
  · intro h1 h2 h3 heq
    obtain ⟨close, hclose⟩ : ∃ v, getQCol df "Close" = some v := by
      cases hx : getQCol df "Close"
      · rw [hx] at h1
        exact Bool.noConfusion h1
      · exact ⟨_, rfl⟩
    obtain ⟨mfi, hmfi⟩ : ∃ v, getQCol df "MFI" = some v := by
      cases hx : getQCol df "MFI"
      · rw [hx] at h2
        exact Bool.noConfusion h2
      · exact ⟨_, rfl⟩
    have hb : hasCol (detect_divergences_post df) "Bull_Div" = true := by
      unfold detect_divergences_post
      rw [hclose, hmfi]
      exact hasCol_setCol_mono _ _ _ _ (hasCol_setCol_self _ _ _)
    rw [heq, h3] at hb
    exact Bool.noConfusion hb
  · intro hd heq
    have hdrop : hasCol (calculate_macd_post df) "Date" = false := by
      unfold calculate_macd_post
      rw [if_pos hd]
      exact hasCol_dropCol_self df "Date"
    rw [heq, hd] at hdrop
    exact Bool.noConfusion hdrop

/-- Witness for C6: the three mutation facts instantiated on concrete frames
carrying exactly the source columns. -/
theorem C6_witness :
    calculate_stochastic_oscillator_post 14 c6df ≠ c6df
  ∧ detect_divergences_post c6dfDiv ≠ c6dfDiv
  ∧ calculate_macd_post c6dfMacd ≠ c6dfMacd :=
  ⟨(C6_inplace_mutation c6df 14).1 (by decide) (by decide) (by decide) (by decide),
   (C6_inplace_mutation c6dfDiv 14).2.1 (by decide) (by decide) (by decide),
   (C6_inplace_mutation c6dfMacd 14).2.2 (by decide)⟩

/-- Counterexample to C6 as stated.  The claim says no indicator component
mutates the caller-owned input table; calling
`calculate_stochastic_oscillator` on a one-bar High/Low/Close frame leaves
the caller's object changed (five derived columns appended), so the input
structure is NOT unchanged after the call. -/
theorem C6_counterexample :
    calculate_stochastic_oscillator_post 14 c6df ≠ c6df ∧
      colNames (calculate_stochastic_oscillator_post 14 c6df) =
        ["High", "Low", "Close", "lowest_low", "highest_high", "%K", "%D", "Status"] := by
  constructor
  · exact (C6_inplace_mutation c6df 14).1 (by decide) (by decide) (by decide) (by decide)
  · with_unfolding_all decide

/-- C9 (confirmed).  `detect_divergences` fails iff the input frame lacks the
Close column or the MFI column, and on that error path it raises before any
assignment: the caller's frame is returned unchanged and no partial output
exists (the error value carries no frame).  Scoped to numeric (float-typed)
tables, the shape of the PriceTable contract. -/
theorem C9_missing_column_error (df : DFrame) (hq : numericDF df = true) :
    (isOkE (detect_divergences_call df).2 = true ↔
      (hasCol df "Close" = true ∧ hasCol df "MFI" = true))
  ∧ (¬(hasCol df "Close" = true ∧ hasCol df "MFI" = true) →
      detect_divergences_call df =
        (df, Except.error "DataFrame must contain Close and MFI columns")) := by
  unfold detect_divergences_call
  by_cases hc : hasCol df "Close" = true <;> by_cases hm : hasCol df "MFI" = true <;>
    simp [hc, hm, isOkE]

/-- Witness for C9: on a numeric frame having Close but no MFI column, the
call errors out and hands back the untouched input frame. -/
theorem C9_witness :
    detect_divergences_call [("Close", Col.qs [1, 2])] =
      ([("Close", Col.qs [1, 2])],
        Except.error "DataFrame must contain Close and MFI columns") :=
  (C9_missing_column_error [("Close", Col.qs [1, 2])] (by decide)).2 (by decide)

/-! ## Price rows, calendar order and sorting (shared by the volatility and
CAGR components) -/

/-- One input record as the volatility/CAGR components see it. -/
structure PriceRow where
  ticker : String
  date : SDate
  close : ℚ
deriving DecidableEq, Repr

/-- Default row used for out-of-range list access (never observed on the
in-range accesses the proofs use). -/
def dRow : PriceRow := ⟨"", ⟨0, 0, 0⟩, 0⟩

/-- Calendar order on dates (lexicographic year, month, day). -/
def dateLe (a b : SDate) : Bool :=
  decide (a.y < b.y) || (decide (a.y = b.y) &&
    (decide (a.m < b.m) || (decide (a.m = b.m) && decide (a.d ≤ b.d))))

lemma dateLe_refl (a : SDate) : dateLe a a = true := by
  simp [dateLe]

/-- Insertion step of the sort modelling pandas `sort_values`. -/
def insertLe {α : Type} (le : α → α → Bool) (a : α) : List α → List α
  | [] => [a]
  | b :: r => if le a b then a :: b :: r else b :: insertLe le a r

/-- Comparison sort modelling pandas `sort_values`: same multiset, ordered by
the key. -/
def sortLe {α : Type} (le : α → α → Bool) : List α → List α
  | [] => []
  | a :: r => insertLe le a (sortLe le r)

lemma insertLe_perm {α : Type} (le : α → α → Bool) (a : α) (l : List α) :
    (insertLe le a l).Perm (a :: l) := by
  induction l with
  | nil => exact List.Perm.refl _
  | cons b r ih =>
    unfold insertLe
    by_cases h : le a b = true
    · rw [if_pos h]
    · rw [if_neg h]
      exact (List.Perm.cons b ih).trans (List.Perm.swap a b r)

lemma sortLe_perm {α : Type} (le : α → α → Bool) (l : List α) :
    (sortLe le l).Perm l := by
  induction l with
  | nil => exact List.Perm.refl _
  | cons a r ih =>
    unfold sortLe
    exact (insertLe_perm le a _).trans (List.Perm.cons a ih)

lemma mem_insertLe {α : Type} (le : α → α → Bool) (a x : α) (l : List α) :
    x ∈ insertLe le a l ↔ x = a ∨ x ∈ l := by
  rw [(insertLe_perm le a l).mem_iff]
  simp

lemma insertLe_pairwise {α : Type} (le : α → α → Bool)
    (htot : ∀ a b, le a b = true ∨ le b a = true)
    (htrans : ∀ a b c, le a b = true → le b c = true → le a c = true)
    (a : α) (l : List α) (hl : l.Pairwise (fun x y => le x y = true)) :
    (insertLe le a l).Pairwise (fun x y => le x y = true) := by
  induction l with
  | nil => simp [insertLe]
  | cons b r ih =>
    unfold insertLe
    obtain ⟨hbr, hr⟩ := List.pairwise_cons.mp hl
    by_cases h : le a b = true
    · rw [if_pos h]
      refine List.pairwise_cons.mpr ⟨?_, hl⟩
      intro x hx
      rcases List.mem_cons.mp hx with hxb | hxr
      · rw [hxb]
        exact h
      · exact htrans a b x h (hbr x hxr)
    · rw [if_neg h]
      refine List.pairwise_cons.mpr ⟨?_, ih hr⟩
      intro x hx
      rcases (mem_insertLe le a x r).mp hx with hxa | hxr
      · rw [hxa]
        rcases htot a b with hab | hba
        · exact absurd hab h
        · exact hba
      · exact hbr x hxr

lemma sortLe_pairwise {α : Type} (le : α → α → Bool)
    (htot : ∀ a b, le a b = true ∨ le b a = true)
    (htrans : ∀ a b c, le a b = true → le b c = true → le a c = true)
    (l : List α) :
    (sortLe le l).Pairwise (fun x y => le x y = true) := by
  induction l with
  | nil => simp [sortLe]
  | cons a r ih =>
    unfold sortLe
    exact insertLe_pairwise le htot htrans a _ ih

/-! ## Historical volatility (`calculate_historical_volatility`,
`src/stock_metrics.py` lines 54-76) -/

/-- Embedding of `max_date = df['Date'].max()`. -/
def maxDate (rows : List PriceRow) : SDate :=
  match rows with
  | [] => ⟨0, 0, 0⟩
  | r :: rest => rest.foldl (fun acc s => if dateLe acc s.date then s.date else acc) r.date

/-- Embedding of `start_of_last_quarter = Timestamp(y, m-2, 1) if m > 2 else
Timestamp(y-1, 10, 1)`. -/
def lastQuarterStart (d : SDate) : SDate :=
  if 2 < d.m then ⟨d.y, d.m - 2, 1⟩ else ⟨d.y - 1, 10, 1⟩

/-- Embedding of the filter `df[df['Date'] >= start_of_last_quarter]`,
order-preserving on the caller's row order. -/
def volFiltered (rows : List PriceRow) : List PriceRow :=
  rows.filter fun r => dateLe (lastQuarterStart (maxDate rows)) r.date

/-- Embedding of `last_quarter_data['Log Returns'] =
np.log(close / close.shift(1))`: one GLOBAL shift over the filtered frame in
its current row order — the shift does NOT restart at ticker boundaries, so
the first return of every ticker after the first divides by the PREVIOUS
TICKER's last close.  Position 0 is NaN (`shift` yields NaN there). -/
def withLogReturns (log : ℚ → ℚ) (rows : List PriceRow) : List (PriceRow × Option ℚ) :=
  (List.range rows.length).map fun i =>
    (rows.getD i dRow,
      if i = 0 then none
      else some (log ((rows.getD i dRow).close / (rows.getD (i-1) dRow).close)))

/-- Sort key of `sort_values(['ticker', 'Date'])`. -/
def tdLe (a b : PriceRow × Option ℚ) : Bool :=
  decide (a.1.ticker < b.1.ticker) ||
    (decide (a.1.ticker = b.1.ticker) && dateLe a.1.date b.1.date)

/-- Grouping key of `groupby(['ticker', 'YearMonth'])`. -/
def volKey (p : PriceRow × Option ℚ) : String × ℕ × ℕ :=
  (p.1.ticker, p.1.date.y, p.1.date.m)

/-- Pandas `Series.std()` on the group, squared to stay rational: sample
variance with `ddof = 1` over the non-NaN entries, NaN (`none`) when fewer
than 2 observations remain.  The reported volatility is the square root of
this value, so it is zero / defined exactly when this value is. -/
def sampleVarPD (l : List ℚ) : Option ℚ :=
  if l.length < 2 then none
  else some ((l.map fun v => (v - listMean l)^2).sum / ((l.length - 1 : ℕ) : ℚ))

/-- One yielded record `{'Name': ticker, 'YearMonth': ym,
'Monthly Volatility': vol}` (squared volatility, see `sampleVarPD`). -/
structure VolSample where
  tickerName : String
  yearMonth : ℕ × ℕ
  vol : Option ℚ
deriving DecidableEq, Repr

/-- Embedding of `calculate_historical_volatility`: convert dates, filter to
the last quarter, attach log returns by one global shift in row order, sort
by (ticker, Date), group by (ticker, YearMonth) and yield one sample per
group key with the standard deviation of the group's attached returns. -/
def calculate_historical_volatility (log : ℚ → ℚ) (rows : List PriceRow) :
    List VolSample :=
  ((sortLe tdLe (withLogReturns log (volFiltered rows))).map volKey).dedup.map fun k =>
    ⟨k.1, k.2, sampleVarPD (((sortLe tdLe (withLogReturns log (volFiltered rows))).filter
      fun p => decide (volKey p = k)).filterMap Prod.snd)⟩

lemma withLogReturns_fst (log : ℚ → ℚ) (rows : List PriceRow) :
    (withLogReturns log rows).map Prod.fst = rows := by
  unfold withLogReturns
  rw [List.map_map]
  apply List.ext_getElem
  · simp
  · intro n h1 h2
    rw [List.getElem_map, List.getElem_range]
    exact List.getD_eq_getElem rows dRow h2

/-- C4 (amended).  For every input table, the volatility computation yields
exactly one sample per (ticker, calendar year-month) key occurring among the
rows that survive the last-quarter filter (keys are deduplicated, so no key
repeats, and every surviving row's key is represented); the sample's value is
the sample standard deviation (squared here, `ddof = 1`, NaN below 2
observations) of the log returns ATTACHED to that group's rows by the global
row-order shift of the filtered table — which crosses ticker boundaries, so
it is not in general the standard deviation of that ticker's own log
returns. -/
theorem C4_volatility_grouping (log : ℚ → ℚ) (rows : List PriceRow) :
    (((calculate_historical_volatility log rows).map
        fun s => (s.tickerName, s.yearMonth)).Nodup)
  ∧ (∀ tk ym, ((tk, ym) ∈ (calculate_historical_volatility log rows).map
        fun s => (s.tickerName, s.yearMonth)) ↔
      ∃ r ∈ volFiltered rows, r.ticker = tk ∧ (r.date.y, r.date.m) = ym)
  ∧ (∀ s ∈ calculate_historical_volatility log rows,
      s.vol = sampleVarPD (((sortLe tdLe (withLogReturns log (volFiltered rows))).filter
        fun p => decide (volKey p = (s.tickerName, s.yearMonth))).filterMap Prod.snd)) := by
  have hproj : ((calculate_historical_volatility log rows).map
      fun s => (s.tickerName, s.yearMonth)) =
      ((sortLe tdLe (withLogReturns log (volFiltered rows))).map volKey).dedup := by
    unfold calculate_historical_volatility
    rw [List.map_map]
    exact List.map_id _
  refine ⟨?_, ?_, ?_⟩
  · rw [hproj]
    exact List.nodup_dedup _
  · intro tk ym
    rw [hproj, List.mem_dedup, List.mem_map]
    constructor
    · rintro ⟨p, hp, hpk⟩
      have hp2 : p ∈ withLogReturns log (volFiltered rows) :=
        (sortLe_perm tdLe _).mem_iff.mp hp
      have hp3 : p.1 ∈ volFiltered rows := by
        rw [← withLogReturns_fst log (volFiltered rows)]
        exact List.mem_map.mpr ⟨p, hp2, rfl⟩
      refine ⟨p.1, hp3, ?_, ?_⟩
      · exact congrArg Prod.fst hpk
      · have := congrArg Prod.snd hpk
        simpa [volKey] using this
    · rintro ⟨r, hr, hrt, hrym⟩
      rw [← withLogReturns_fst log (volFiltered rows)] at hr
      obtain ⟨p, hp, hpr⟩ := List.mem_map.mp hr
      refine ⟨p, (sortLe_perm tdLe _).mem_iff.mpr hp, ?_⟩
      unfold volKey
      rw [hpr, hrt]
      rw [Prod.ext_iff]
      exact ⟨rfl, by rw [← hrym]⟩
  · intro s hs
    unfold calculate_historical_volatility at hs
    obtain ⟨k, hk, hks⟩ := List.mem_map.mp hs
    have h1 : s.tickerName = k.1 := by rw [← hks]
    have h2 : s.yearMonth = k.2 := by rw [← hks]
    have h3 : s.vol = sampleVarPD
        (((sortLe tdLe (withLogReturns log (volFiltered rows))).filter
          fun p => decide (volKey p = k)).filterMap Prod.snd) := by rw [← hks]
    rw [h3, h1, h2]

/-- Stand-in for `np.log` in the concrete volatility instances; it agrees
with the real natural logarithm on the only properties those instances use:
the ratio 1 maps to 0 and the ratio 2 maps to something nonzero. -/
def logStub : ℚ → ℚ := fun q => if q = 1 then 0 else 1

/-- Five rows, two tickers, all inside one calendar month (hence inside the
last quarter): ticker A has constant close 4, ticker B constant close 8. -/
def c4rows : List PriceRow :=
  [⟨"A", ⟨2024, 3, 1⟩, 4⟩, ⟨"A", ⟨2024, 3, 2⟩, 4⟩,
   ⟨"B", ⟨2024, 3, 1⟩, 8⟩, ⟨"B", ⟨2024, 3, 2⟩, 8⟩, ⟨"B", ⟨2024, 3, 3⟩, 8⟩]

set_option maxRecDepth 10000 in
/-- Witness for C4: the B-group sample of `c4rows` carries exactly the
standard deviation (squared) of the returns attached to B's rows. -/
theorem C4_witness :
    (⟨"B", (2024, 3), some (1/3)⟩ : VolSample).vol =
      sampleVarPD (((sortLe tdLe (withLogReturns logStub (volFiltered c4rows))).filter
        fun p => decide (volKey p = ("B", (2024, 3)))).filterMap Prod.snd) :=
  (C4_volatility_grouping logStub c4rows).2.2 ⟨"B", (2024, 3), some (1/3)⟩
    (by with_unfolding_all decide)

set_option maxRecDepth 10000 in
/-- Counterexample to C4 as stated.  Ticker B's close is constant (8) through
calendar month 2024-03, yet its monthly volatility is NOT 0: the sample is
`some (1/3)` in squared-volatility terms (any nonzero value refutes
volatility = 0), because the global `shift(1)` attaches to B's first row the
return `log(8/4)` computed from ticker A's last close — the computation is
not the standard deviation of B's own log returns, which would all be
`log 1 = 0`. -/
theorem C4_counterexample :
    ((c4rows.filter fun r => decide (r.ticker = "B")).map PriceRow.close = [8, 8, 8])
  ∧ (calculate_historical_volatility logStub c4rows).getD 1 ⟨"", (0, 0), none⟩ =
      ⟨"B", (2024, 3), some (1/3)⟩ := by
  with_unfolding_all decide

/-! ## Per-year CAGR (`calculate_annual_cagr`)

`src/dashboard.py` line 424 calls `sm.calculate_annual_cagr(df)` and consumes
the result as a two-level mapping ticker → year → optional CAGR, but the
definition of `calculate_annual_cagr` is not among the available source
files (`src/stock_metrics.py` only contains the flat, whole-history
`calculate_cagr`).  The component is therefore modelled from the
specification. -/

lemma dateLe_total (a b : SDate) : dateLe a b = true ∨ dateLe b a = true := by
  simp only [dateLe, Bool.or_eq_true, Bool.and_eq_true, decide_eq_true_eq]
  omega

lemma dateLe_trans (a b c : SDate) (h1 : dateLe a b = true) (h2 : dateLe b c = true) :
    dateLe a c = true := by
  simp only [dateLe, Bool.or_eq_true, Bool.and_eq_true, decide_eq_true_eq] at h1 h2 ⊢
  omega

lemma pairwise_le_headD {α : Type} (le : α → α → Bool) (hrefl : ∀ a, le a a = true)
    (l : List α) (d : α) (hp : l.Pairwise (fun x y => le x y = true)) :
    ∀ x ∈ l, le (l.headD d) x = true := by
  cases l with
  | nil => intro x hx; simp at hx
  | cons a r =>
    intro x hx
    rw [List.headD_cons]
    rcases List.mem_cons.mp hx with h | h
    · rw [h]
      exact hrefl a
    · exact (List.pairwise_cons.mp hp).1 x h

lemma getLastD_mem {α : Type} (l : List α) (d : α) (hl : l ≠ []) :
    l.getLastD d ∈ l := by
  induction l generalizing d with
  | nil => simp at hl
  | cons a r ih =>
    rw [List.getLastD_cons]
    by_cases hr : r = []
    · subst hr
      simp
    · exact List.mem_cons_of_mem a (ih a hr)

lemma pairwise_le_getLastD {α : Type} (le : α → α → Bool) (hrefl : ∀ a, le a a = true) :
    ∀ (l : List α) (d : α), l.Pairwise (fun x y => le x y = true) →
      ∀ x ∈ l, le x (l.getLastD d) = true := by
  intro l
  induction l with
  | nil => intro d hp x hx; simp at hx
  | cons a r ih =>
    intro d hp x hx
    rw [List.getLastD_cons]
    rcases List.mem_cons.mp hx with h | h
    · subst h
      by_cases hr : r = []
      · subst hr
        simp only [List.getLastD]
        exact hrefl x
      · exact (List.pairwise_cons.mp hp).1 _ (getLastD_mem r x hr)
    · exact ih a (List.Pairwise.of_cons hp) x h

/-- Day number of a common-era calendar date (days since 1970-01-01, the
standard civil-from-days correspondence); `(end - start).days` of pandas
timestamps is the difference of these numbers.  All intermediate values are
nonnegative for common-era dates, so truncated integer division coincides
with floor division here. -/
def dayNumber (dt : SDate) : ℤ :=
  let yr : ℤ := if dt.m ≤ 2 then (dt.y : ℤ) - 1 else (dt.y : ℤ)
  let era : ℤ := yr / 400
  let yoe : ℤ := yr - era * 400
  let mp : ℤ := ((dt.m : ℤ) + 9) % 12
  let doy : ℤ := (153 * mp + 2) / 5 + (dt.d : ℤ) - 1
  let doe : ℤ := yoe * 365 + yoe / 4 - yoe / 100 + doy
  era * 146097 + doe - 719468

/-- Modelled from the spec: `deltaYears = (lastDate − firstDate) days /
365.25` (365.25 written as the exact rational 1461/4). -/
def deltaYears (a b : SDate) : ℚ := ((dayNumber b - dayNumber a : ℤ) : ℚ) / (1461 / 4)

/-- Modelled from the spec: the guarded CAGR formula — when `deltaYears > 0`
and `initial > 0` the value is `(final/initial)^(1/deltaYears) − 1`, else the
entry is undefined.  Real-valued exponentiation is abstracted by `powf`. -/
def cagrFormula (powf : ℚ → ℚ → ℚ) (initial final dy : ℚ) : Option ℚ :=
  if 0 < dy ∧ 0 < initial then some (powf (final / initial) (1 / dy) - 1) else none

/-- Chronological comparison of rows by date. -/
def rowDateLe (a b : PriceRow) : Bool := dateLe a.date b.date

/-- Modelled from the spec: the bars of one ticker restricted to one calendar
year, in chronological order. -/
def cagrGroup (rows : List PriceRow) (tk : String) (yr : ℕ) : List PriceRow :=
  sortLe rowDateLe
    (rows.filter fun r => decide (r.ticker = tk) && decide (r.date.y = yr))

/-- Modelled from the spec: `calculate_annual_cagr`, the per-year CAGR
component that `src/dashboard.py` calls but whose definition is missing from
the source files.  Group by ticker, then by calendar year; a ticker-year with
fewer than 2 bars is undefined; otherwise `initial`/`final` are the first and
last close of the year and the guarded formula applies.  The two-level
mapping ticker → year → optional value is represented as this function of
(ticker, year). -/
def calculate_annual_cagr (powf : ℚ → ℚ → ℚ) (rows : List PriceRow)
    (tk : String) (yr : ℕ) : Option ℚ :=
  if (cagrGroup rows tk yr).length < 2 then none
  else cagrFormula powf ((cagrGroup rows tk yr).headD dRow).close
    ((cagrGroup rows tk yr).getLastD dRow).close
    (deltaYears ((cagrGroup rows tk yr).headD dRow).date
      ((cagrGroup rows tk yr).getLastD dRow).date)

/-- C5 (confirmed, against the spec-modelled `calculate_annual_cagr`).  The
per-year CAGR groups by ticker and then by calendar year; a ticker-year with
fewer than 2 bars is undefined; otherwise, with `initial`/`final` the first
and last close of the year (the group is chronologically sorted: its head is
date-minimal and its last element date-maximal) and `deltaYears` the day
difference over 365.25, the entry is `(final/initial)^(1/deltaYears) − 1`
when `deltaYears > 0` and `initial > 0` and undefined otherwise; and the
formula at `initial = 100`, `final = 121`, `deltaYears = 1` yields exactly
`0.21`. -/
theorem C5_annual_cagr (powf : ℚ → ℚ → ℚ) (rows : List PriceRow)
    (tk : String) (yr : ℕ) :
    ((cagrGroup rows tk yr).length < 2 → calculate_annual_cagr powf rows tk yr = none)
  ∧ (2 ≤ (cagrGroup rows tk yr).length →
      calculate_annual_cagr powf rows tk yr =
        cagrFormula powf ((cagrGroup rows tk yr).headD dRow).close
          ((cagrGroup rows tk yr).getLastD dRow).close
          (deltaYears ((cagrGroup rows tk yr).headD dRow).date
            ((cagrGroup rows tk yr).getLastD dRow).date))
  ∧ (∀ r ∈ cagrGroup rows tk yr,
      dateLe ((cagrGroup rows tk yr).headD dRow).date r.date = true)
  ∧ (∀ r ∈ cagrGroup rows tk yr,
      dateLe r.date ((cagrGroup rows tk yr).getLastD dRow).date = true)
  ∧ (powf (121/100) 1 = 121/100 →
      cagrFormula powf 100 121 1 = some (21/100)) := by
  have hpair : (cagrGroup rows tk yr).Pairwise
      (fun x y => rowDateLe x y = true) := by
    unfold cagrGroup
    exact sortLe_pairwise rowDateLe (fun a b => dateLe_total a.date b.date)
      (fun a b c h1 h2 => dateLe_trans a.date b.date c.date h1 h2) _
  refine ⟨?_, ?_, ?_, ?_, ?_⟩
  · intro h
    unfold calculate_annual_cagr
    rw [if_pos h]
  · intro h
    unfold calculate_annual_cagr
    rw [if_neg (by omega)]
  · exact pairwise_le_headD rowDateLe (fun a => dateLe_refl a.date) _ dRow hpair
  · exact pairwise_le_getLastD rowDateLe (fun a => dateLe_refl a.date) _ dRow hpair
  · intro hp
    unfold cagrFormula
    rw [if_pos (by norm_num)]
    have h1 : (1 : ℚ) / 1 = 1 := by norm_num
    rw [h1, hp]
    norm_num

/-- Stand-in for real exponentiation in the concrete CAGR instances; only
applied where the exponent is irrelevant to the checked equality or equal
to 1, where `powf x 1 = x` agrees with the real power function. -/
def powfStub : ℚ → ℚ → ℚ := fun x _ => x

/-- One ticker with exactly two bars spanning most of 2020:
`initial = 100`, `final = 121`. -/
def c5rows : List PriceRow :=
  [⟨"A", ⟨2020, 1, 1⟩, 100⟩, ⟨"A", ⟨2020, 12, 31⟩, 121⟩]

set_option maxRecDepth 10000 in
/-- Witness for C5: the two-bar ticker-year resolves through the guarded
formula, and the formula at `initial = 100`, `final = 121`, `deltaYears = 1`
yields `0.21` exactly. -/
theorem C5_witness :
    calculate_annual_cagr powfStub c5rows "A" 2020 = some (21/100)
  ∧ cagrFormula powfStub 100 121 1 = some (21/100) := by
  constructor
  · have h := (C5_annual_cagr powfStub c5rows "A" 2020).2.1
      (by with_unfolding_all decide)
    rw [h]
    with_unfolding_all decide
  · exact (C5_annual_cagr powfStub c5rows "A" 2020).2.2.2.2
      (by with_unfolding_all decide)

end StockTS
